import Mathlib

/-!
Verification development for the `discord-broadcast` repository.

The shipped sources contain the dashboard web server (`DashboardServer`), the
membership verification controller (`VerificationController`), an uptime
pinger and the bootstrap file.  The broadcast dispatch engine
(`src/models/BroadcastManager`), although required by the bootstrap file and
queried by the dashboard, is not among the shipped sources; definitions that
concern it are modelled from the specification text and say so in their doc
comment.  Everything else is translated directly from the JavaScript sources.
-/

/-- Modelled from the spec: the shared per-job counters of a `BroadcastJob`
(the engine `src/models/BroadcastManager` is absent from the shipped sources,
only its callers are present).  Section 3: `{success, failure, remaining}`. -/
structure Counters where
  success : Nat
  failure : Nat
  remaining : Nat
deriving Repr, DecidableEq

/-- Modelled from the spec: the terminal per-member delivery outcome a
pipeline reports to the job counters (section 4.4). -/
inductive MemberOutcome where
  | delivered
  | permanentFailure
deriving Repr, DecidableEq

/-- Modelled from the spec: counters of a fresh job whose resolved audience
has the given size (`targetCount`). -/
def Counters.init (targetCount : Nat) : Counters :=
  ⟨0, 0, targetCount⟩

/-- Modelled from the spec, section 4.4: on success, increment
`counters.success` and decrement `counters.remaining`; on a permanent
failure, increment `counters.failure` and decrement `counters.remaining`. -/
def Counters.record (c : Counters) (o : MemberOutcome) : Counters :=
  match o with
  | .delivered => ⟨c.success + 1, c.failure, c.remaining - 1⟩
  | .permanentFailure => ⟨c.success, c.failure + 1, c.remaining - 1⟩

/-- Modelled from the spec, section 4.4: on cancellation every
never-attempted member is folded into `counters.failure` and `remaining` is
forced to 0. -/
def Counters.cancelFold (c : Counters) : Counters :=
  ⟨c.success, c.failure + c.remaining, 0⟩

/-- Modelled from the spec: the counters observable once the pipelines have
consumed and resolved the first `k` members of a resolved audience whose
members end in the listed outcomes. -/
def countersAfter (outcomes : List MemberOutcome) (k : Nat) : Counters :=
  (outcomes.take k).foldl Counters.record (Counters.init outcomes.length)

/-- The invariant check of section 8: `success + failure + remaining ==
targetCount`. -/
def Counters.checkInvariant (c : Counters) (targetCount : Nat) : Bool :=
  c.success + c.failure + c.remaining == targetCount

/-- Modelled from the spec, section 4.4: job progress percentage,
`floor(100 * (success+failure) / targetCount)`, defined as 0 when
`targetCount == 0`. -/
def progressPercent (c : Counters) (targetCount : Nat) : Nat :=
  if targetCount = 0 then 0 else 100 * (c.success + c.failure) / targetCount

/-- Modelled from the spec, section 3: job lifecycle states. -/
inductive JobStatus where
  | queued
  | running
  | completed
  | cancelled
  | failed
deriving Repr, DecidableEq

/-- A status from which no further transition happens (section 4.4). -/
def JobStatus.isTerminal : JobStatus → Bool
  | .completed => true
  | .cancelled => true
  | .failed => true
  | _ => false

/-- Modelled from the spec, section 3: the observable record of one
broadcast job. -/
structure BroadcastJob where
  id : Nat
  targetCount : Nat
  counters : Counters
  status : JobStatus
deriving Repr, DecidableEq

/-- Modelled from the spec, section 4.3: job creation.  An empty resolved
audience completes immediately with `targetCount = 0` and terminal status
`Completed`; otherwise the job starts `Running` over the resolved audience,
whose size fixes `targetCount`. -/
def startJob (id : Nat) (audience : List Nat) : BroadcastJob :=
  if audience.isEmpty then
    ⟨id, 0, Counters.init 0, .completed⟩
  else
    ⟨id, audience.length, Counters.init audience.length, .running⟩

/-- Modelled from the spec, section 3: the process-wide StatsAggregator
totals. -/
structure Stats where
  totalBroadcasts : Nat
  totalMembersTargeted : Nat
  totalSuccess : Nat
  totalFailures : Nat
deriving Repr, DecidableEq

/-- Modelled from the spec: the aggregator is initialized to zero at process
start. -/
def Stats.start : Stats :=
  ⟨0, 0, 0, 0⟩

/-- Modelled from the spec, section 4.6: `fold(job)` runs once per job at
completion, incrementing `totalBroadcasts` by 1, `totalMembersTargeted` by
`targetCount`, and the success/failure totals by the job's final counters. -/
def Stats.fold (st : Stats) (job : BroadcastJob) : Stats :=
  ⟨st.totalBroadcasts + 1,
   st.totalMembersTargeted + job.targetCount,
   st.totalSuccess + job.counters.success,
   st.totalFailures + job.counters.failure⟩

/-- Modelled from the spec, section 3: the derived success rate,
`totalSuccess / max(1, totalSuccess + totalFailures)`, recomputed on read. -/
def Stats.successRate (st : Stats) : ℚ :=
  (st.totalSuccess : ℚ) / max 1 ((st.totalSuccess : ℚ) + (st.totalFailures : ℚ))

/-- Job ids are opaque; natural numbers stand in for them. -/
abbrev JobId := Nat

/-- Modelled from the spec, section 4.5: the JobRegistry view `cancel`
consults, namely the status of every known job keyed by id. -/
abbrev Registry := List (JobId × JobStatus)

/-- Status lookup in the registry. -/
def lookupStatus (reg : Registry) (id : JobId) : Option JobStatus :=
  (reg.find? (fun e => e.1 == id)).map (fun e => e.2)

/-- Modelled from the spec, section 4.7: `cancel(jobId) -> bool` returns
false when the job is unknown or already terminal, and otherwise signals
cancellation (the job's status becomes `Cancelled`) and returns true. -/
def cancelJob (reg : Registry) (id : JobId) : Registry × Bool :=
  match lookupStatus reg id with
  | none => (reg, false)
  | some st =>
    if st.isTerminal then (reg, false)
    else (reg.map (fun e => if e.1 == id then (e.1, JobStatus.cancelled) else e), true)

/-- Modelled from the spec, section 4.2: outcome of one raw send attempt. -/
inductive SendOutcome where
  | success
  | blocked
  | rateLimited
  | transient
  | unknown
deriving Repr, DecidableEq

/-- Modelled from the spec, section 4.4: the fixed small retry bound ("e.g.,
2 retries"), so a member is attempted at most `retryBound + 1` times. -/
def retryBound : Nat := 2

/-- Modelled from the spec, sections 4.2 and 4.4: the delivery loop for one
member.  `sendAttempt i` is the provider's outcome of the i-th attempt.
`Blocked` is permanent and never retried; `RateLimited`, `Transient` and
`Unknown` are retried while retries remain and become a permanent failure
once the bound is exhausted.  Returns the terminal member outcome together
with the number of attempts performed. -/
def deliverGo (sendAttempt : Nat → SendOutcome) : Nat → Nat → MemberOutcome × Nat
  | 0, attempt =>
    match sendAttempt attempt with
    | .success => (.delivered, attempt + 1)
    | .blocked => (.permanentFailure, attempt + 1)
    | _ => (.permanentFailure, attempt + 1)
  | n + 1, attempt =>
    match sendAttempt attempt with
    | .success => (.delivered, attempt + 1)
    | .blocked => (.permanentFailure, attempt + 1)
    | _ => deliverGo sendAttempt n (attempt + 1)

/-- Modelled from the spec: delivering one member starts at attempt 0 with
the full retry budget. -/
def deliverMember (sendAttempt : Nat → SendOutcome) : MemberOutcome × Nat :=
  deliverGo sendAttempt retryBound 0

/-- The whitespace characters stripped by the JavaScript `String.prototype.trim`
in the ASCII range. -/
def isJsWhitespace (c : Char) : Bool :=
  c == ' ' || c == '\t' || c == '\n' || c == '\r' || c == '\x0b' || c == '\x0c'

/-- `String.prototype.trim`: leading and trailing whitespace removed. -/
def jsTrim (s : List Char) : List Char :=
  ((s.dropWhile isJsWhitespace).reverse.dropWhile isJsWhitespace).reverse

/-- The U+2026 horizontal ellipsis the dashboard appends to long previews. -/
def ellipsisChar : Char := Char.ofNat 0x2026

/-- Embeds `formatMessagePreviewValue` from `DashboardServer.renderDashboardPage`
(src/unnamed/part_000 lines 187-192, identical to the client-side
`formatMessagePreview` at lines 914-919): a falsy (empty) message and a
message that trims to nothing render a placeholder; otherwise the trimmed
message is shown, cut to its first 117 characters plus an ellipsis when its
trimmed length exceeds 120. -/
def formatMessagePreviewValue (message : String) : String :=
  if message.data = [] then "Awaiting first dispatch"
  else
    let trimmed := jsTrim message.data
    if trimmed = [] then "Awaiting first dispatch"
    else if trimmed.length > 120 then ⟨trimmed.take 117 ++ [ellipsisChar]⟩
    else ⟨trimmed⟩

/-- A JavaScript object appearing in the `clientLoad` list of the dashboard
state; either numeric field may be absent (`none` models `undefined`). -/
structure LoadEntry where
  clientId : String
  load : Option Nat
  currentLoad : Option Nat
deriving Repr, DecidableEq

/-- Embeds the load lookup of `DashboardServer.getStatusPayload`
(src/unnamed/part_000 line 113): every entry is destructured as
`{ clientId, load }` into a map which is then read with `|| 0`, exactly as
`renderDashboardPage` (lines 249-255) reads `entry.load` with default 0. -/
def dashboardLoadOf (entries : List LoadEntry) (id : String) : Nat :=
  match entries.find? (fun e => e.clientId == id) with
  | some e => e.load.getD 0
  | none => 0

/-- Modelled from the spec, section 3: the WorkerHandle fields that are
visible to monitoring. -/
structure WorkerHandle where
  clientId : String
  currentLoad : Nat
deriving Repr, DecidableEq

/-- Follows the spec words for the claim under test: a `clientLoad` entry of
shape `{clientId, currentLoad}` (field literally named `currentLoad`; no
`load` field present). -/
def specShapedEntry (w : WorkerHandle) : LoadEntry :=
  ⟨w.clientId, none, some w.currentLoad⟩

/-- Modelled from the spec with the field name the shipped consumers read: a
`clientLoad` entry of shape `{clientId, load}` carrying the worker's
current load. -/
def clientLoadEntry (w : WorkerHandle) : LoadEntry :=
  ⟨w.clientId, some w.currentLoad, none⟩

/-- Modelled from the spec: one `clientLoad` entry per worker. -/
def clientLoadList (workers : List WorkerHandle) : List LoadEntry :=
  workers.map clientLoadEntry

/-- The value of `req.query.key` as seen by the middleware: absent, a string,
or some non-string shape (e.g. a repeated query parameter parsed as an
array). -/
inductive QueryVal where
  | missing
  | str (s : String)
  | nonString
deriving Repr, DecidableEq

/-- The request fields the dashboard's routing and auth middleware consult. -/
structure DashRequest where
  path : String
  xApiKey : Option String
  authorization : Option String
  queryKey : QueryVal
deriving Repr, DecidableEq

/-- JavaScript truthiness of a possibly-absent string: absent (`undefined`)
and the empty string are falsy. -/
def jsTruthy : Option String → Bool
  | none => false
  | some s => !(s == "")

/-- Embeds the token extraction of `registerAuthMiddleware`
(src/unnamed/part_000 lines 76-85): `token` starts `null`; a truthy
`x-api-key` header wins; otherwise a string `key` query parameter is taken;
if the token is still falsy a `Bearer `-prefixed authorization header
supplies its suffix. -/
def extractToken (req : DashRequest) : Option String :=
  let token : Option String := none
  let token := if jsTruthy req.xApiKey then req.xApiKey else token
  let token :=
    if !jsTruthy token then
      match req.queryKey with
      | .str s => some s
      | _ => token
    else token
  let token :=
    if !jsTruthy token && jsTruthy req.authorization
        && (req.authorization.getD "").startsWith "Bearer " then
      some ((req.authorization.getD "").drop 7)
    else token
  token

/-- The distinct ways the dashboard answers a request. -/
inductive DashResponse where
  | health
  | page
  | statusJson
  | unauthorized
  | notFound
deriving Repr, DecidableEq

/-- Embeds the pass condition of `registerAuthMiddleware`
(src/unnamed/part_000 lines 65-94): with an empty `apiKey` the middleware is
never installed; `/health` is passed through; otherwise the extracted token
must equal the configured key (`token === this.apiKey`). -/
def authAllows (apiKey : String) (req : DashRequest) : Bool :=
  if apiKey == "" then true
  else if req.path == "/health" then true
  else extractToken req == some apiKey

/-- Embeds the express pipeline assembled in `DashboardServer.start`
(src/unnamed/part_000 lines 38-40): the `/health` route is registered before
the auth middleware, then the middleware answers 401 on a bad token, then
the `/` and `/api/status` routes serve; any other path falls through to the
framework's not-found answer. -/
def dashboardRespond (apiKey : String) (req : DashRequest) : DashResponse :=
  if req.path == "/health" then .health
  else if !authAllows apiKey req then .unauthorized
  else if req.path == "/" then .page
  else if req.path == "/api/status" then .statusJson
  else .notFound

/-- Whether a registered route handler produced the answer. -/
def DashResponse.isRouteServed : DashResponse → Bool
  | .health => true
  | .page => true
  | .statusJson => true
  | _ => false

/-- The apostrophe character escaped by `escapeHtml`. -/
def aposChar : Char := Char.ofNat 39

/-- A JavaScript value reaching `escapeHtml`: `undefined`, `null`, or a
string (other inputs are first coerced by `String(value)`). -/
inductive JsVal where
  | undef
  | jsNull
  | str (s : String)
deriving Repr, DecidableEq

/-- One global single-character replacement, as in
`String.prototype.replace(/c/g, repl)`. -/
def jsReplaceChar (c : Char) (repl : List Char) : List Char → List Char
  | [] => []
  | a :: rest => (if a == c then repl else [a]) ++ jsReplaceChar c repl rest

/-- The five global replacements of `escapeHtml` in source order, `&`
first (src/unnamed/part_000 lines 1140-1145). -/
def escPipeline (s : List Char) : List Char :=
  jsReplaceChar aposChar "&#039;".data
    (jsReplaceChar '"' "&quot;".data
      (jsReplaceChar '>' "&gt;".data
        (jsReplaceChar '<' "&lt;".data
          (jsReplaceChar '&' "&amp;".data s))))

/-- Embeds `DashboardServer.escapeHtml` (src/unnamed/part_000 lines
1138-1146): `undefined` and `null` map to the empty string; otherwise the
five global replacements run in source order, `&` first. -/
def escapeHtml : JsVal → String
  | .undef => ""
  | .jsNull => ""
  | .str s => ⟨escPipeline s.data⟩

/-- The per-character escaping that the five sequential replacements of
`escapeHtml` amount to. -/
def escChar (c : Char) : List Char :=
  if c == '&' then "&amp;".data
  else if c == '<' then "&lt;".data
  else if c == '>' then "&gt;".data
  else if c == '"' then "&quot;".data
  else if c == aposChar then "&#039;".data
  else [c]

/-- Character-wise concatenation of `escChar` over a string. -/
def escConcat : List Char → List Char
  | [] => []
  | a :: rest => escChar a ++ escConcat rest

/-- A character the escaped output may not contain. -/
def goodChar (c : Char) : Bool :=
  !(c == '<') && !(c == '>') && !(c == '"') && !(c == aposChar)

/-- The five entity strings `escapeHtml` introduces. -/
def entitiesIntroduced : List (List Char) :=
  ["&amp;".data, "&lt;".data, "&gt;".data, "&quot;".data, "&#039;".data]

/-- Whether the list starts with one of the introduced entities. -/
def startsWithEntity (l : List Char) : Bool :=
  entitiesIntroduced.any (fun e => e.isPrefixOf l)

/-- Checks that every ampersand in the list starts one of the introduced
entities. -/
def ampEntityOk : List Char → Bool
  | [] => true
  | c :: rest =>
    (if c == '&' then startsWithEntity (c :: rest) else true) && ampEntityOk rest

/-- The verification configuration `VerificationController` consults. -/
structure VerifyConfig where
  enabled : Bool
  guildId : String
deriving Repr, DecidableEq

/-- One `guildMemberUpdate` gateway event, together with the environment's
response to a DM send attempt (`sendSucceeds` is false when
`newMember.send` throws). -/
structure MemberUpdateEvent where
  memberId : String
  hasGuild : Bool
  guildId : String
  oldPending : Bool
  newPending : Bool
  sendSucceeds : Bool
deriving Repr, DecidableEq

/-- Embeds `handleGuildMemberUpdate` (VerificationController.js lines 57-79)
as a transition on the module-level `notifiedMembers` set: the new set is
returned together with whether a verification DM was delivered.  The id is
recorded only after a send that did not throw. -/
def handleGuildMemberUpdate (cfg : VerifyConfig) (notifiedMembers : List String)
    (ev : MemberUpdateEvent) : List String × Bool :=
  if !cfg.enabled then (notifiedMembers, false)
  else if !ev.hasGuild then (notifiedMembers, false)
  else if !(ev.guildId == cfg.guildId) then (notifiedMembers, false)
  else if ev.oldPending && !ev.newPending then
    if notifiedMembers.contains ev.memberId then (notifiedMembers, false)
    else if ev.sendSucceeds then (ev.memberId :: notifiedMembers, true)
    else (notifiedMembers, false)
  else (notifiedMembers, false)

/-- Runs a sequence of gateway events from a given `notifiedMembers` state,
collecting in order the member ids to which a verification DM was
delivered. -/
def runVerification (cfg : VerifyConfig) (notifiedMembers : List String) :
    List MemberUpdateEvent → List String
  | [] => []
  | ev :: rest =>
    let r := handleGuildMemberUpdate cfg notifiedMembers ev
    (if r.2 then [ev.memberId] else []) ++ runVerification cfg r.1 rest

/-- Folding member reports into counters that still have enough `remaining`
budget preserves the counter sum. -/
theorem foldl_record_sum (l : List MemberOutcome) :
    ∀ c : Counters, l.length ≤ c.remaining →
      (l.foldl Counters.record c).success + (l.foldl Counters.record c).failure
          + (l.foldl Counters.record c).remaining
        = c.success + c.failure + c.remaining := by
  induction l with
  | nil => intro c _; rfl
  | cons a l ih =>
    intro c h
    have hlen : l.length + 1 ≤ c.remaining := by simpa using h
    have h' : l.length ≤ (Counters.record c a).remaining := by
      cases a <;> simp [Counters.record] <;> omega
    rw [List.foldl_cons, ih _ h']
    cases a <;> simp [Counters.record] <;> omega

/-- C1: for every resolved audience and at every observable instant of the
job run (after any number `k` of processed members, and also after the
cancellation fold at that instant) the job counters satisfy
`success + failure + remaining == targetCount`. -/
theorem counters_invariant (outcomes : List MemberOutcome) (k : Nat)
    (_h : k ≤ outcomes.length) :
    (countersAfter outcomes k).checkInvariant outcomes.length = true ∧
    ((countersAfter outcomes k).cancelFold).checkInvariant outcomes.length = true := by
  have hlen : (outcomes.take k).length ≤ (Counters.init outcomes.length).remaining := by
    simp [Counters.init]
  have hsum : (countersAfter outcomes k).success + (countersAfter outcomes k).failure
      + (countersAfter outcomes k).remaining = outcomes.length := by
    have hfold := foldl_record_sum (outcomes.take k) (Counters.init outcomes.length) hlen
    simpa [countersAfter, Counters.init] using hfold
  constructor
  · simp only [Counters.checkInvariant, beq_iff_eq]
    omega
  · simp only [Counters.checkInvariant, Counters.cancelFold, beq_iff_eq]
    omega

/-- Witness for C1 at a concrete three-member audience observed after two
members were processed. -/
theorem counters_invariant_witness :
    (countersAfter [MemberOutcome.delivered, MemberOutcome.permanentFailure,
        MemberOutcome.delivered] 2).checkInvariant 3 = true ∧
    ((countersAfter [MemberOutcome.delivered, MemberOutcome.permanentFailure,
        MemberOutcome.delivered] 2).cancelFold).checkInvariant 3 = true :=
  counters_invariant
    [MemberOutcome.delivered, MemberOutcome.permanentFailure, MemberOutcome.delivered]
    2 (by decide)

/-- C2: the progress percentage is the floor of `100 * (success+failure) /
targetCount`, is 0 when `targetCount = 0`, and a job over an empty resolved
audience is immediately `Completed` with `targetCount = 0`, reports progress
0, and folds into the stats without dividing by zero (its success rate read
stays well-defined). -/
theorem progress_spec (c : Counters) (n : Nat) (id : Nat) (hn : n ≠ 0) :
    progressPercent c n
        = ⌊(100 * ((c.success : ℚ) + (c.failure : ℚ))) / (n : ℚ)⌋₊ ∧
    progressPercent c 0 = 0 ∧
    (startJob id []).status = JobStatus.completed ∧
    (startJob id []).targetCount = 0 ∧
    progressPercent (startJob id []).counters (startJob id []).targetCount = 0 ∧
    (Stats.start.fold (startJob id [])).successRate = 0 := by
  refine ⟨?_, by simp [progressPercent], by simp [startJob], by simp [startJob],
    by simp [startJob, progressPercent], ?_⟩
  · have hfl : ⌊(100 * ((c.success : ℚ) + (c.failure : ℚ))) / (n : ℚ)⌋₊
        = 100 * (c.success + c.failure) / n := by
      rw [show (100 : ℚ) * ((c.success : ℚ) + (c.failure : ℚ))
          = ((100 * (c.success + c.failure) : ℕ) : ℚ) by push_cast; ring]
      rw [Nat.floor_div_nat, Nat.floor_natCast]
    rw [hfl]
    simp [progressPercent, hn]
  · simp [Stats.successRate, Stats.fold, Stats.start, startJob, Counters.init]

/-- Witness for C2 at concrete counters 3/1/4 over a target of 8. -/
theorem progress_spec_witness :
    progressPercent ⟨3, 1, 4⟩ 8
        = ⌊(100 * (((Counters.mk 3 1 4).success : ℚ)
            + ((Counters.mk 3 1 4).failure : ℚ))) / ((8 : Nat) : ℚ)⌋₊ ∧
    progressPercent ⟨3, 1, 4⟩ 0 = 0 ∧
    (startJob 1 []).status = JobStatus.completed ∧
    (startJob 1 []).targetCount = 0 ∧
    progressPercent (startJob 1 []).counters (startJob 1 []).targetCount = 0 ∧
    (Stats.start.fold (startJob 1 [])).successRate = 0 :=
  progress_spec ⟨3, 1, 4⟩ 8 1 (by decide)

/-- Unfolding a registry lookup over a cons cell. -/
theorem lookupStatus_cons (p : JobId × JobStatus) (reg : Registry) (id : JobId) :
    lookupStatus (p :: reg) id
      = if p.1 == id then some p.2 else lookupStatus reg id := by
  unfold lookupStatus
  rw [List.find?_cons]
  cases hpe : p.1 == id
  · simp
  · simp

/-- Marking a job cancelled in the registry is visible to a later lookup. -/
theorem lookupStatus_cancelMap (reg : Registry) (id : JobId) (st : JobStatus)
    (h : lookupStatus reg id = some st) :
    lookupStatus
        (reg.map (fun e => if e.1 == id then (e.1, JobStatus.cancelled) else e)) id
      = some JobStatus.cancelled := by
  induction reg with
  | nil => simp [lookupStatus] at h
  | cons p reg ih =>
    rw [List.map_cons, lookupStatus_cons]
    cases hpe : p.1 == id
    · rw [lookupStatus_cons] at h
      simp only [hpe, Bool.false_eq_true, if_false] at h ⊢
      exact ih h
    · simp [hpe]

/-- C3: `cancel(jobId)` returns true exactly when the job is known and not
yet terminal (false for unknown or terminal jobs), and a second cancel of
the same job after a successful one returns false. -/
theorem cancel_spec (reg : Registry) (id : JobId) :
    ((cancelJob reg id).2 = true ↔
      ∃ st, lookupStatus reg id = some st ∧ st.isTerminal = false) ∧
    ((cancelJob reg id).2 = true →
      (cancelJob (cancelJob reg id).1 id).2 = false) := by
  constructor
  · rcases h : lookupStatus reg id with _ | st
    · simp [cancelJob, h]
    · by_cases ht : st.isTerminal
      · simp [cancelJob, h, ht]
      · simp [cancelJob, h, ht]
  · intro htrue
    rcases h : lookupStatus reg id with _ | st
    · simp [cancelJob, h] at htrue
    · by_cases ht : st.isTerminal
      · simp [cancelJob, h, ht] at htrue
      · have ht' : st.isTerminal = false := by simpa using ht
        have h2 := lookupStatus_cancelMap reg id st h
        have e1 : cancelJob reg id
            = (reg.map (fun e => if e.1 == id then (e.1, JobStatus.cancelled) else e),
               true) := by
          unfold cancelJob
          rw [h]
          simp [ht']
        rw [e1]
        unfold cancelJob
        rw [h2]
        simp [JobStatus.isTerminal]

/-- Witness for C3: cancelling a concrete running job returns true, and
cancelling it again returns false. -/
theorem cancel_spec_witness :
    (cancelJob ([(1, JobStatus.running)] : Registry) 1).2 = true ∧
    (cancelJob (cancelJob ([(1, JobStatus.running)] : Registry) 1).1 1).2 = false := by
  have h := cancel_spec ([(1, JobStatus.running)] : Registry) 1
  have h1 : (cancelJob ([(1, JobStatus.running)] : Registry) 1).2 = true :=
    h.1.mpr ⟨JobStatus.running, by decide⟩
  exact ⟨h1, h.2 h1⟩

/-- A member whose every attempt is throttled exhausts the retry budget and
ends as a permanent failure. -/
theorem deliverGo_throttled (sendAttempt : Nat → SendOutcome)
    (h : ∀ i, sendAttempt i = SendOutcome.rateLimited) :
    ∀ r a, deliverGo sendAttempt r a = (MemberOutcome.permanentFailure, a + r + 1) := by
  intro r
  induction r with
  | zero => intro a; simp [deliverGo, h a]
  | succ n ih =>
    intro a
    rw [deliverGo, h a]
    rw [ih (a + 1)]
    simp [Prod.mk.injEq]
    omega

/-- No matter how the provider answers, the delivery loop performs at most
`retriesLeft + 1` attempts beyond the starting index. -/
theorem deliverGo_attempts_le (sendAttempt : Nat → SendOutcome) :
    ∀ r a, (deliverGo sendAttempt r a).2 ≤ a + r + 1 := by
  intro r
  induction r with
  | zero =>
    intro a
    rw [deliverGo]
    cases hsa : sendAttempt a <;> simp
  | succ n ih =>
    intro a
    have hih := ih (a + 1)
    rw [deliverGo]
    cases hsa : sendAttempt a <;> simp <;> omega

/-- C4: a member whose every send attempt is `RateLimited` is retried only
up to the fixed bound (exactly `retryBound + 1` attempts) and then recorded
as a permanent failure (failure incremented, remaining decremented); no
provider behaviour whatsoever can drive the loop past `retryBound + 1`
attempts. -/
theorem retry_bound_spec (sendAttempt : Nat → SendOutcome) (c : Counters)
    (h : ∀ i, sendAttempt i = SendOutcome.rateLimited) :
    deliverMember sendAttempt = (MemberOutcome.permanentFailure, retryBound + 1) ∧
    (∀ f : Nat → SendOutcome, (deliverMember f).2 ≤ retryBound + 1) ∧
    c.record (deliverMember sendAttempt).1
      = ⟨c.success, c.failure + 1, c.remaining - 1⟩ := by
  have h1 := deliverGo_throttled sendAttempt h retryBound 0
  have hfst : (deliverMember sendAttempt).1 = MemberOutcome.permanentFailure := by
    simp [deliverMember, h1]
  refine ⟨?_, ?_, ?_⟩
  · simpa [deliverMember] using h1
  · intro f
    have := deliverGo_attempts_le f retryBound 0
    simpa [deliverMember] using this
  · rw [hfst]
    rfl

/-- Witness for C4 with the constant throttled provider. -/
theorem retry_bound_spec_witness :
    deliverMember (fun _ => SendOutcome.rateLimited)
      = (MemberOutcome.permanentFailure, retryBound + 1) ∧
    (Counters.mk 2 3 4).record
        (deliverMember (fun _ => SendOutcome.rateLimited)).1
      = ⟨2, 4, 3⟩ :=
  ⟨(retry_bound_spec (fun _ => SendOutcome.rateLimited) ⟨2, 3, 4⟩ (fun _ => rfl)).1,
   (retry_bound_spec (fun _ => SendOutcome.rateLimited) ⟨2, 3, 4⟩ (fun _ => rfl)).2.2⟩

/-- C5: at every read the success rate equals
`totalSuccess / max(1, totalSuccess + totalFailures)`, lies in `[0, 100]`,
and is 0 when no message was ever attempted. -/
theorem successRate_spec (st : Stats) :
    st.successRate
        = (st.totalSuccess : ℚ)
            / max 1 ((st.totalSuccess : ℚ) + (st.totalFailures : ℚ)) ∧
    0 ≤ st.successRate ∧ st.successRate ≤ 100 ∧
    (st.totalSuccess + st.totalFailures = 0 → st.successRate = 0) := by
  have hM : (0 : ℚ) < max 1 ((st.totalSuccess : ℚ) + (st.totalFailures : ℚ)) :=
    lt_of_lt_of_le zero_lt_one (le_max_left _ _)
  refine ⟨rfl, ?_, ?_, ?_⟩
  · exact div_nonneg (by positivity) (le_of_lt hM)
  · have hle : (st.totalSuccess : ℚ)
        ≤ max 1 ((st.totalSuccess : ℚ) + (st.totalFailures : ℚ)) := by
      calc (st.totalSuccess : ℚ)
          ≤ (st.totalSuccess : ℚ) + (st.totalFailures : ℚ) :=
            le_add_of_nonneg_right (by positivity)
        _ ≤ max 1 ((st.totalSuccess : ℚ) + (st.totalFailures : ℚ)) :=
            le_max_right _ _
    have hone : st.successRate ≤ 1 := by
      rw [Stats.successRate]
      exact div_le_one_of_le₀ hle (le_of_lt hM)
    linarith
  · intro h0
    have hs : st.totalSuccess = 0 := by omega
    simp [Stats.successRate, hs]

/-- Witness for C5 at the freshly initialized aggregator. -/
theorem successRate_spec_witness : Stats.successRate ⟨0, 0, 0, 0⟩ = 0 :=
  (successRate_spec ⟨0, 0, 0, 0⟩).2.2.2 (by decide)

set_option maxRecDepth 8192 in
/-- Counterexample for C6: the dashboard preview is not the raw payload for
short payloads with surrounding whitespace (it is trimmed first), and for a
payload of 121 identical characters the preview is not a prefix of the
payload (an ellipsis character is appended). -/
theorem preview_counterexample :
    ¬(formatMessagePreviewValue " x" = " x") ∧
    ¬((formatMessagePreviewValue (String.mk (List.replicate 121 'a'))).data
        <+: (String.mk (List.replicate 121 'a')).data) := by
  constructor
  · decide
  · decide

/-- The trimmed message is a contiguous part of the original message. -/
theorem jsTrim_part (s : List Char) : jsTrim s <:+: s := by
  have h1 : s.dropWhile isJsWhitespace <:+ s := List.dropWhile_suffix _
  have h3 : (jsTrim s).reverse <:+ (s.dropWhile isJsWhitespace).reverse := by
    unfold jsTrim
    rw [List.reverse_reverse]
    exact List.dropWhile_suffix _
  have h2 : jsTrim s <+: s.dropWhile isJsWhitespace := List.reverse_suffix.mp h3
  obtain ⟨u, hu⟩ := h2
  obtain ⟨v, hv⟩ := h1
  exact ⟨v, u, by rw [List.append_assoc, hu, hv]⟩

/-- C6 (amended): whitespace-only payloads render a placeholder; a payload
whose trimmed form has at most 120 characters is shown as exactly that
trimmed form (a contiguous part of the payload); a longer payload is shown
as the first 117 characters of its trimmed form followed by one ellipsis,
118 characters in total. -/
theorem preview_amended (message : String) :
    (jsTrim message.data = [] →
      formatMessagePreviewValue message = "Awaiting first dispatch") ∧
    (jsTrim message.data ≠ [] → (jsTrim message.data).length ≤ 120 →
      (formatMessagePreviewValue message).data = jsTrim message.data ∧
      (formatMessagePreviewValue message).data <:+: message.data) ∧
    ((jsTrim message.data).length > 120 →
      (formatMessagePreviewValue message).data
          = (jsTrim message.data).take 117 ++ [ellipsisChar] ∧
      (jsTrim message.data).take 117 <+: jsTrim message.data ∧
      (formatMessagePreviewValue message).data.length = 118) := by
  refine ⟨?_, ?_, ?_⟩
  · intro ht
    by_cases hm : message.data = []
    · simp [formatMessagePreviewValue, hm]
    · simp [formatMessagePreviewValue, hm, ht]
  · intro ht hlen
    have hm : message.data ≠ [] := by
      intro hm
      apply ht
      rw [hm]
      rfl
    have hgt : ¬ (jsTrim message.data).length > 120 := by omega
    have hout : (formatMessagePreviewValue message).data = jsTrim message.data := by
      simp [formatMessagePreviewValue, hm, ht, hgt]
    exact ⟨hout, hout ▸ jsTrim_part message.data⟩
  · intro hgt
    have ht : jsTrim message.data ≠ [] := by
      intro h0
      rw [h0] at hgt
      simp at hgt
    have hm : message.data ≠ [] := by
      intro hm
      apply ht
      rw [hm]
      rfl
    have hout : (formatMessagePreviewValue message).data
        = (jsTrim message.data).take 117 ++ [ellipsisChar] := by
      simp [formatMessagePreviewValue, hm, ht, hgt]
    refine ⟨hout, ⟨(jsTrim message.data).drop 117, List.take_append_drop _ _⟩, ?_⟩
    rw [hout]
    simp [List.length_take]
    omega

/-- Witness for C6 (amended) on a payload with surrounding whitespace. -/
theorem preview_amended_witness :
    (formatMessagePreviewValue "  hello  ").data = jsTrim "  hello  ".data ∧
    (formatMessagePreviewValue "  hello  ").data <:+: "  hello  ".data :=
  (preview_amended "  hello  ").2.1 (by decide) (by decide)

/-- Counterexample for C7: an entry of the spec's stated shape
`{clientId, currentLoad}` is unreadable by the shipped dashboard lookup,
which destructures `{ clientId, load }`: a worker with current load 5 would
be displayed as 0. -/
theorem clientLoad_counterexample :
    ¬ (dashboardLoadOf [specShapedEntry ⟨"w1", 5⟩] "w1"
        = (WorkerHandle.mk "w1" 5).currentLoad) := by
  decide

/-- With pairwise distinct client ids, the dashboard lookup recovers each
worker's current load from `{clientId, load}` entries. -/
theorem clientLoad_lookup (workers : List WorkerHandle) (w : WorkerHandle) :
    w ∈ workers → (workers.map WorkerHandle.clientId).Nodup →
    dashboardLoadOf (clientLoadList workers) w.clientId = w.currentLoad := by
  induction workers with
  | nil => intro hw _; cases hw
  | cons p ws ih =>
    intro hw hnd
    rw [List.map_cons, List.nodup_cons] at hnd
    rcases List.mem_cons.mp hw with hw | hw
    · subst hw
      simp [dashboardLoadOf, clientLoadList, clientLoadEntry, List.find?_cons]
    · have hne : (p.clientId == w.clientId) = false := by
        rw [beq_eq_false_iff_ne]
        intro he
        exact hnd.1 (he ▸ List.mem_map_of_mem WorkerHandle.clientId hw)
      have hskip : dashboardLoadOf (clientLoadList (p :: ws)) w.clientId
          = dashboardLoadOf (clientLoadList ws) w.clientId := by
        simp [dashboardLoadOf, clientLoadList, clientLoadEntry, List.find?_cons, hne]
      rw [hskip]
      exact ih hw hnd.2

/-- C7 (amended): the snapshot's `clientLoad` list has one entry per worker,
each of shape `{clientId, load}`, and for pairwise distinct client ids the
dashboard lookup reads back exactly each worker's count of
assigned-but-unresolved sends. -/
theorem clientLoad_amended (workers : List WorkerHandle)
    (hnd : (workers.map WorkerHandle.clientId).Nodup) :
    (clientLoadList workers).length = workers.length ∧
    ∀ w ∈ workers,
      dashboardLoadOf (clientLoadList workers) w.clientId = w.currentLoad := by
  constructor
  · simp [clientLoadList]
  · intro w hw
    exact clientLoad_lookup workers w hw hnd

/-- Witness for C7 (amended) with two concrete workers. -/
theorem clientLoad_amended_witness :
    dashboardLoadOf (clientLoadList [⟨"a", 3⟩, ⟨"b", 7⟩]) "b" = 7 :=
  (clientLoad_amended [⟨"a", 3⟩, ⟨"b", 7⟩] (by decide)).2 ⟨"b", 7⟩ (by decide)

/-- Counterexample for C8: a request to an unregistered path carrying the
correct key in `x-api-key` passes the middleware but is served by no route
handler, and is answered with the framework's not-found response rather
than 401 — so "served iff the token matches" fails for it. -/
theorem auth_counterexample :
    ¬ (((dashboardRespond "sekret"
            ⟨"/metrics", some "sekret", none, QueryVal.missing⟩).isRouteServed = true) ↔
        extractToken ⟨"/metrics", some "sekret", none, QueryVal.missing⟩
          = some "sekret") ∧
    dashboardRespond "sekret" ⟨"/metrics", some "sekret", none, QueryVal.missing⟩
      ≠ DashResponse.unauthorized := by
  constructor
  · decide
  · decide

/-- When the middleware lets a non-health request through, the answer comes
from the route table. -/
theorem dashboardRespond_allowed (apiKey : String) (req : DashRequest)
    (hp : (req.path == "/health") = false)
    (ha : authAllows apiKey req = true) :
    dashboardRespond apiKey req
      = if req.path == "/" then DashResponse.page
        else if req.path == "/api/status" then DashResponse.statusJson
        else DashResponse.notFound := by
  simp [dashboardRespond, hp, ha]

/-- C8 (amended): with a non-empty configured key, `/health` is always
served; any other request is answered 401 exactly when the token extracted
from the request differs from the key; and a request to a registered route
(`/` or `/api/status`) whose token matches is served by that route's
handler. -/
theorem auth_amended (apiKey : String) (req : DashRequest) (hk : apiKey ≠ "") :
    (req.path = "/health" → dashboardRespond apiKey req = DashResponse.health) ∧
    (req.path ≠ "/health" →
      (dashboardRespond apiKey req = DashResponse.unauthorized ↔
        ¬ extractToken req = some apiKey)) ∧
    (extractToken req = some apiKey → req.path = "/" →
      dashboardRespond apiKey req = DashResponse.page) ∧
    (extractToken req = some apiKey → req.path = "/api/status" →
      dashboardRespond apiKey req = DashResponse.statusJson) := by
  have hk' : (apiKey == "") = false := by
    rw [beq_eq_false_iff_ne]
    exact hk
  refine ⟨?_, ?_, ?_, ?_⟩
  · intro hp
    have hp' : (req.path == "/health") = true := by
      rw [beq_iff_eq]
      exact hp
    simp [dashboardRespond, hp']
  · intro hp
    have hp' : (req.path == "/health") = false := by
      rw [beq_eq_false_iff_ne]
      exact hp
    by_cases htok : extractToken req = some apiKey
    · have ha : authAllows apiKey req = true := by
        simp [authAllows, hk', hp', htok]
      constructor
      · intro hresp
        rw [dashboardRespond_allowed apiKey req hp' ha] at hresp
        split at hresp
        · cases hresp
        · split at hresp
          · cases hresp
          · cases hresp
      · intro hcon
        exact absurd htok hcon
    · have ha : authAllows apiKey req = false := by
        simp [authAllows, hk', hp']
        exact htok
      have hresp : dashboardRespond apiKey req = DashResponse.unauthorized := by
        simp [dashboardRespond, hp', ha]
      simp [hresp, htok]
  · intro htok hp
    have hp' : (req.path == "/health") = false := by
      rw [beq_eq_false_iff_ne, hp]
      decide
    have ha : authAllows apiKey req = true := by
      simp [authAllows, hk', hp', htok]
    have hps : (req.path == "/") = true := by
      rw [beq_iff_eq]
      exact hp
    simp [dashboardRespond, hp', ha, hps]
  · intro htok hp
    have hp' : (req.path == "/health") = false := by
      rw [beq_eq_false_iff_ne, hp]
      decide
    have ha : authAllows apiKey req = true := by
      simp [authAllows, hk', hp', htok]
    have hps : (req.path == "/api/status") = true := by
      rw [beq_iff_eq]
      exact hp
    have hpr : (req.path == "/") = false := by
      rw [beq_eq_false_iff_ne, hp]
      decide
    simp [dashboardRespond, hp', ha, hps, hpr]

/-- Witness for C8 (amended): a status request with the matching key in the
query string is served, and one with a wrong bearer token is answered 401. -/
theorem auth_amended_witness :
    dashboardRespond "k" ⟨"/api/status", none, none, QueryVal.str "k"⟩
      = DashResponse.statusJson ∧
    (dashboardRespond "k" ⟨"/api/status", none, some "Bearer nope", QueryVal.missing⟩
        = DashResponse.unauthorized ↔
      ¬ extractToken ⟨"/api/status", none, some "Bearer nope", QueryVal.missing⟩
          = some "k") :=
  ⟨(auth_amended "k" ⟨"/api/status", none, none, QueryVal.str "k"⟩
      (by decide)).2.2.2 (by decide) rfl,
   (auth_amended "k" ⟨"/api/status", none, some "Bearer nope", QueryVal.missing⟩
      (by decide)).2.1 (by decide)⟩

/-- A global single-character replacement distributes over concatenation. -/
theorem jsReplaceChar_append (c : Char) (repl : List Char) :
    ∀ xs ys : List Char,
      jsReplaceChar c repl (xs ++ ys)
        = jsReplaceChar c repl xs ++ jsReplaceChar c repl ys := by
  intro xs ys
  induction xs with
  | nil => rfl
  | cons a xs ih => simp [jsReplaceChar, ih]

/-- The escaping pipeline distributes over concatenation. -/
theorem escPipeline_append (xs ys : List Char) :
    escPipeline (xs ++ ys) = escPipeline xs ++ escPipeline ys := by
  simp [escPipeline, jsReplaceChar_append]

/-- On one character the pipeline acts as the per-character escape map. -/
theorem escPipeline_single (a : Char) : escPipeline [a] = escChar a := by
  by_cases h1 : a = '&'
  · subst h1; rfl
  by_cases h2 : a = '<'
  · subst h2; rfl
  by_cases h3 : a = '>'
  · subst h3; rfl
  by_cases h4 : a = '"'
  · subst h4; rfl
  by_cases h5 : a = aposChar
  · subst h5; rfl
  have b1 : (a == '&') = false := by rw [beq_eq_false_iff_ne]; exact h1
  have b2 : (a == '<') = false := by rw [beq_eq_false_iff_ne]; exact h2
  have b3 : (a == '>') = false := by rw [beq_eq_false_iff_ne]; exact h3
  have b4 : (a == '"') = false := by rw [beq_eq_false_iff_ne]; exact h4
  have b5 : (a == aposChar) = false := by rw [beq_eq_false_iff_ne]; exact h5
  simp [escPipeline, escChar, jsReplaceChar, b1, b2, b3, b4, b5]

/-- The five sequential replacements amount to the per-character escape. -/
theorem escPipeline_eq_escConcat (s : List Char) : escPipeline s = escConcat s := by
  induction s with
  | nil => rfl
  | cons a s ih =>
    calc escPipeline (a :: s) = escPipeline ([a] ++ s) := rfl
      _ = escPipeline [a] ++ escPipeline s := escPipeline_append _ _
      _ = escChar a ++ escConcat s := by rw [escPipeline_single, ih]
      _ = escConcat (a :: s) := rfl

/-- Each escape block is either one of the introduced entities or a single
harmless non-ampersand character. -/
theorem escChar_cases (a : Char) :
    escChar a ∈ entitiesIntroduced ∨
      (escChar a = [a] ∧ goodChar a = true ∧ (a == '&') = false) := by
  by_cases h1 : a = '&'
  · subst h1; left; decide
  by_cases h2 : a = '<'
  · subst h2; left; decide
  by_cases h3 : a = '>'
  · subst h3; left; decide
  by_cases h4 : a = '"'
  · subst h4; left; decide
  by_cases h5 : a = aposChar
  · subst h5; left; decide
  have b1 : (a == '&') = false := by rw [beq_eq_false_iff_ne]; exact h1
  have b2 : (a == '<') = false := by rw [beq_eq_false_iff_ne]; exact h2
  have b3 : (a == '>') = false := by rw [beq_eq_false_iff_ne]; exact h3
  have b4 : (a == '"') = false := by rw [beq_eq_false_iff_ne]; exact h4
  have b5 : (a == aposChar) = false := by rw [beq_eq_false_iff_ne]; exact h5
  right
  refine ⟨?_, ?_, b1⟩
  · simp [escChar, b1, b2, b3, b4, b5]
  · simp [goodChar, b2, b3, b4, b5]

/-- The escaped output contains no unescaped special character. -/
theorem goodChar_escConcat : ∀ s : List Char, (escConcat s).all goodChar = true := by
  intro s
  induction s with
  | nil => rfl
  | cons a s ih =>
    have hc : escConcat (a :: s) = escChar a ++ escConcat s := rfl
    rw [hc, List.all_append, ih, Bool.and_true]
    rcases escChar_cases a with he | ⟨he, hg, _⟩
    · simp only [entitiesIntroduced, List.mem_cons, List.not_mem_nil, or_false] at he
      rcases he with he | he | he | he | he <;> rw [he] <;> decide
    · rw [he]
      simp [hg]

/-- Prepending an introduced entity keeps the ampersand discipline. -/
theorem ampEntityOk_entity_append (e : List Char) (he : e ∈ entitiesIntroduced)
    (rest : List Char) (hr : ampEntityOk rest = true) :
    ampEntityOk (e ++ rest) = true := by
  simp only [entitiesIntroduced, List.mem_cons, List.not_mem_nil, or_false] at he
  rcases he with he | he | he | he | he <;> subst he <;>
    simp [ampEntityOk, startsWithEntity, entitiesIntroduced, List.isPrefixOf, hr]

/-- Prepending a non-ampersand character keeps the ampersand discipline. -/
theorem ampEntityOk_plain_append (a : Char) (ha : (a == '&') = false)
    (rest : List Char) (hr : ampEntityOk rest = true) :
    ampEntityOk ([a] ++ rest) = true := by
  simp [ampEntityOk, ha, hr]

/-- Every ampersand in the escaped output starts an introduced entity. -/
theorem ampEntityOk_escConcat : ∀ s : List Char, ampEntityOk (escConcat s) = true := by
  intro s
  induction s with
  | nil => rfl
  | cons a s ih =>
    have hc : escConcat (a :: s) = escChar a ++ escConcat s := rfl
    rw [hc]
    rcases escChar_cases a with he | ⟨he, _, ha⟩
    · exact ampEntityOk_entity_append _ he _ ih
    · rw [he]
      exact ampEntityOk_plain_append a ha _ ih

/-- C9: for every input value, `escapeHtml` returns a string containing none
of `<`, `>`, `"`, `'`, in which every `&` starts one of the entities the
escaper introduces, and `undefined`/`null` inputs give the empty string. -/
theorem escapeHtml_spec (v : JsVal) :
    (escapeHtml v).data.all goodChar = true ∧
    ampEntityOk (escapeHtml v).data = true ∧
    escapeHtml JsVal.undef = "" ∧
    escapeHtml JsVal.jsNull = "" := by
  refine ⟨?_, ?_, rfl, rfl⟩ <;> cases v with
  | undef => rfl
  | jsNull => rfl
  | str s =>
    have hd : (escapeHtml (JsVal.str s)).data = escConcat s.data := by
      show escPipeline s.data = escConcat s.data
      exact escPipeline_eq_escConcat s.data
    rw [hd]
    first
    | exact goodChar_escConcat s.data
    | exact ampEntityOk_escConcat s.data

/-- The controller either leaves the notified set untouched without sending,
or sends exactly when all guards pass and records the member id. -/
theorem handle_cases (cfg : VerifyConfig) (notified : List String)
    (ev : MemberUpdateEvent) :
    handleGuildMemberUpdate cfg notified ev = (notified, false) ∨
    (handleGuildMemberUpdate cfg notified ev = (ev.memberId :: notified, true) ∧
      notified.contains ev.memberId = false ∧ cfg.enabled = true ∧
      ev.hasGuild = true ∧ (ev.guildId == cfg.guildId) = true ∧
      ev.oldPending = true ∧ ev.newPending = false ∧ ev.sendSucceeds = true) := by
  unfold handleGuildMemberUpdate
  split_ifs with h1 h2 h3 h4 h5 h6
  · exact Or.inl rfl
  · exact Or.inl rfl
  · exact Or.inl rfl
  · exact Or.inl rfl
  · right
    refine ⟨rfl, ?_, ?_, ?_, ?_, ?_, ?_, h6⟩ <;> simp_all
  · exact Or.inl rfl
  · exact Or.inl rfl

/-- Starting from any notified set, a trace of gateway events delivers at
most one DM to a member not yet notified, and none to a notified member. -/
theorem runVerification_count (cfg : VerifyConfig) :
    ∀ (evs : List MemberUpdateEvent) (notified : List String) (m : String),
      (runVerification cfg notified evs).count m
        ≤ if notified.contains m then 0 else 1 := by
  intro evs
  induction evs with
  | nil =>
    intro notified m
    simp only [runVerification, List.count_nil]
    split <;> omega
  | cons ev evs ih =>
    intro notified m
    rcases handle_cases cfg notified ev with h | ⟨h, hc, _⟩
    · have hrun : runVerification cfg notified (ev :: evs)
          = runVerification cfg notified evs := by
        simp [runVerification, h]
      rw [hrun]
      exact ih notified m
    · have hrun : runVerification cfg notified (ev :: evs)
          = [ev.memberId] ++ runVerification cfg (ev.memberId :: notified) evs := by
        simp [runVerification, h]
      rw [hrun, List.count_append]
      have h2 := ih (ev.memberId :: notified) m
      by_cases hm : m = ev.memberId
      · have hcontains : ((ev.memberId :: notified).contains m) = true := by
          simp [hm]
        rw [hcontains] at h2
        simp only [if_pos] at h2
        have hcz : List.count m (runVerification cfg (ev.memberId :: notified) evs)
            = 0 := by omega
        have hone : List.count m [ev.memberId] = 1 := by simp [hm]
        have hrhs : (notified.contains m) = false := by rw [hm]; exact hc
        rw [hone, hcz, hrhs]
        simp
      · have hmb : (m == ev.memberId) = false := by
          rw [beq_eq_false_iff_ne]
          exact hm
        have hcc : ((ev.memberId :: notified).contains m) = notified.contains m := by
          simp only [List.contains_cons, hmb, Bool.false_or]
        rw [hcc] at h2
        have hz : List.count m [ev.memberId] = 0 :=
          List.count_eq_zero.mpr (by simp [hm])
        rw [hz]
        cases hcm : notified.contains m <;> rw [hcm] at h2 <;> simp at h2 ⊢ <;> omega

/-- C10: over any process-lifetime trace of gateway events the verification
workflow delivers the DM at most once per member id, and a DM is delivered
only when verification is enabled, the member's guild matches, the member
transitions from pending to not pending, and the id is not yet in
`notifiedMembers` — which the successful send then records. -/
theorem dm_at_most_once (cfg : VerifyConfig) (evs : List MemberUpdateEvent)
    (m : String) :
    (runVerification cfg [] evs).count m ≤ 1 ∧
    (∀ notified ev, (handleGuildMemberUpdate cfg notified ev).2 = true →
      cfg.enabled = true ∧ ev.hasGuild = true ∧ ev.guildId = cfg.guildId ∧
      ev.oldPending = true ∧ ev.newPending = false ∧
      notified.contains ev.memberId = false ∧
      (handleGuildMemberUpdate cfg notified ev).1 = ev.memberId :: notified) := by
  constructor
  · have hcount := runVerification_count cfg evs [] m
    simpa using hcount
  · intro notified ev hsent
    rcases handle_cases cfg notified ev with h | ⟨h, hc, he, hg, hgid, hop, hnp, _⟩
    · rw [h] at hsent
      simp at hsent
    · refine ⟨he, hg, by simpa using hgid, hop, hnp, hc, by rw [h]⟩

/-- Witness for C10: a concrete enabled configuration, matching guild and
pending-to-not-pending transition with a successful send. -/
theorem dm_at_most_once_witness :
    (VerifyConfig.mk true "g").enabled = true ∧
    (MemberUpdateEvent.mk "m1" true "g" true false true).hasGuild = true ∧
    (MemberUpdateEvent.mk "m1" true "g" true false true).guildId
      = (VerifyConfig.mk true "g").guildId ∧
    (MemberUpdateEvent.mk "m1" true "g" true false true).oldPending = true ∧
    (MemberUpdateEvent.mk "m1" true "g" true false true).newPending = false ∧
    ([] : List String).contains
        (MemberUpdateEvent.mk "m1" true "g" true false true).memberId = false ∧
    (handleGuildMemberUpdate (VerifyConfig.mk true "g") []
        (MemberUpdateEvent.mk "m1" true "g" true false true)).1
      = (MemberUpdateEvent.mk "m1" true "g" true false true).memberId :: [] :=
  (dm_at_most_once (VerifyConfig.mk true "g") [] "m1").2 []
    (MemberUpdateEvent.mk "m1" true "g" true false true) (by decide)
